import Mathlib

/-!
# Verification of the `astgettext` extraction-and-rendering engine

This file gives a shallow embedding, in Lean 4, of the core of
`astgettext.py`: the keyword-specification parser, the syntax-tree walk
that extracts marked string literals, message deduplication, the string
escaping function, and the template renderer with its column-bounded
wrapping.  Python dictionaries are modelled as association lists that
preserve insertion order (matching CPython dict semantics), Python
strings as Lean `String` (operated on through their character lists),
and fallible operations as `Option`/`Except`.
-/

set_option linter.unusedVariables false

namespace Astgettext

/-! ## Association lists modelling insertion-ordered Python dicts -/

/-- A Python `dict` (insertion-ordered) modelled as a list of key-value
pairs, first component the key.  Keys are unique in every dict that the
program builds. -/
abbrev AList (κ α : Type) := List (κ × α)

/-- Python `d[k]` / `d.get(k)`: the value stored at the first (and, for the
dicts built here, only) occurrence of key `k`. -/
def alistGet? {κ α : Type} [DecidableEq κ] (d : AList κ α) (k : κ) : Option α :=
  match d with
  | [] => none
  | (k', v) :: rest => if k' = k then some v else alistGet? rest k

/-- Python `d[k] = v`: update in place when the key is present (keeping its
position, as CPython dicts do), otherwise append a new entry. -/
def alistSet {κ α : Type} [DecidableEq κ] (d : AList κ α) (k : κ) (v : α) : AList κ α :=
  match d with
  | [] => [(k, v)]
  | (k', v') :: rest => if k' = k then (k', v) :: rest else (k', v') :: alistSet rest k v

/-- Python `k in d`. -/
def alistContains {κ α : Type} [DecidableEq κ] (d : AList κ α) (k : κ) : Bool :=
  (alistGet? d k).isSome

/-- Python `d.get(k, dflt)`. -/
def alistGetD {κ α : Type} [DecidableEq κ] (d : AList κ α) (k : κ) (dflt : α) : α :=
  (alistGet? d k).getD dflt

/-- Python `d1 | d2` (equivalently `{**d1, **d2}`): start from `d1` and assign
every entry of `d2` in order, so on a key collision the value from `d2`
wins while the key keeps its `d1` position. -/
def alistUnion {κ α : Type} [DecidableEq κ] (d1 d2 : AList κ α) : AList κ α :=
  d2.foldl (fun acc p => alistSet acc p.1 p.2) d1

theorem alistGet?_set {κ α : Type} [DecidableEq κ] (d : AList κ α) (k : κ) (v : α) (k' : κ) :
    alistGet? (alistSet d k v) k' = if k = k' then some v else alistGet? d k' := by
  induction d with
  | nil =>
    by_cases h : k = k' <;> simp [alistSet, alistGet?, h]
  | cons p rest ih =>
    obtain ⟨a, b⟩ := p
    by_cases hak : a = k
    · subst hak
      by_cases h : a = k' <;> simp [alistSet, alistGet?, h]
    · by_cases h : a = k'
      · subst h
        have : ¬ k = a := fun hh => hak hh.symm
        simp [alistSet, alistGet?, hak, this]
      · simp [alistSet, alistGet?, hak, h, ih]

theorem alistContains_set {κ α : Type} [DecidableEq κ] (d : AList κ α) (k : κ) (v : α) (k' : κ) :
    alistContains (alistSet d k v) k' = (decide (k = k') || alistContains d k') := by
  by_cases h : k = k' <;> simp [alistContains, alistGet?_set, h]

theorem alistKeys_set_of_mem {κ α : Type} [DecidableEq κ] (d : AList κ α) (k : κ) (v : α)
    (h : k ∈ d.map Prod.fst) : (alistSet d k v).map Prod.fst = d.map Prod.fst := by
  induction d with
  | nil => simp at h
  | cons p rest ih =>
    obtain ⟨a, b⟩ := p
    by_cases hak : a = k
    · simp [alistSet, hak]
    · have : k ∈ rest.map Prod.fst := by
        rcases (by simpa using h) with h1 | h1
        · exact absurd h1.symm hak
        · simpa using h1
      simp [alistSet, hak, ih this]

theorem alistKeys_set_of_not_mem {κ α : Type} [DecidableEq κ] (d : AList κ α) (k : κ) (v : α)
    (h : k ∉ d.map Prod.fst) : (alistSet d k v).map Prod.fst = d.map Prod.fst ++ [k] := by
  induction d with
  | nil => simp [alistSet]
  | cons p rest ih =>
    obtain ⟨a, b⟩ := p
    have hak : ¬ a = k := by
      intro hh
      exact h (by simp [hh])
    have : k ∉ rest.map Prod.fst := by
      intro hh
      exact h (by simp [hh])
    simp [alistSet, hak, ih this]

theorem alistGet?_eq_none_iff {κ α : Type} [DecidableEq κ] (d : AList κ α) (k : κ) :
    alistGet? d k = none ↔ k ∉ d.map Prod.fst := by
  induction d with
  | nil => simp [alistGet?]
  | cons p rest ih =>
    obtain ⟨a, b⟩ := p
    by_cases hak : a = k
    · subst hak
      simp [alistGet?]
    · have hget : alistGet? ((a, b) :: rest) k = alistGet? rest k := by
        simp [alistGet?, hak]
      rw [hget]
      simp only [List.map_cons, List.mem_cons]
      constructor
      · intro h hk
        rcases hk with hk | hk
        · exact hak hk.symm
        · exact (ih.mp h) hk
      · intro h
        exact ih.mpr (fun hk => h (Or.inr hk))

theorem alistGet?_append {κ α : Type} [DecidableEq κ] (d1 d2 : AList κ α) (k : κ) :
    alistGet? (d1 ++ d2) k =
      match alistGet? d1 k with
      | some v => some v
      | none => alistGet? d2 k := by
  induction d1 with
  | nil => simp [alistGet?]
  | cons p rest ih =>
    obtain ⟨a, b⟩ := p
    by_cases hak : a = k <;> simp [alistGet?, hak, ih]

/-! ## Python string primitives

`str.split(sep)` for a one-character separator, `sep.join`, and `int()`
(modelled on optionally signed decimal digit strings; the `int()`
niceties of surrounding whitespace and underscore separators are not
exercised by any keyword specification considered here). -/

/-- Auxiliary state of `str.split`: `cur` holds the characters of the
current field in reverse. -/
def splitOnCharAux (sep : Char) : List Char → List Char → List (List Char)
  | [], cur => [cur.reverse]
  | c :: rest, cur =>
    if c = sep then cur.reverse :: splitOnCharAux sep rest []
    else splitOnCharAux sep rest (c :: cur)

/-- Python `s.split(sep)` for a single-character separator: always at
least one field, empty fields preserved. -/
def pySplit (sep : Char) (s : String) : List String :=
  (splitOnCharAux sep s.data []).map String.mk

/-- Python `sep.join(ss)`. -/
def pyJoin (sep : String) : List String → String
  | [] => ""
  | [x] => x
  | x :: xs => x ++ sep ++ pyJoin sep xs

/-- Digits of a decimal numeral, most significant first; `none` when
empty or containing a non-digit. -/
def digitsValAux (acc : Nat) : List Char → Option Nat
  | [] => some acc
  | c :: rest => if c.isDigit then digitsValAux (acc * 10 + (c.toNat - '0'.toNat)) rest else none

def digitsVal (cs : List Char) : Option Nat :=
  match cs with
  | [] => none
  | _ => digitsValAux 0 cs

/-- Python `int(s)` on an optionally signed decimal numeral. -/
def pyInt (cs : List Char) : Option Int :=
  match cs with
  | '-' :: rest => (digitsVal rest).map (fun n => -(n : Int))
  | '+' :: rest => (digitsVal rest).map (fun n => (n : Int))
  | _ => (digitsVal cs).map (fun n => (n : Int))

/-! ## The keyword-specification parser (`parse_keywords`) -/

/-- One pass of the `for arg in arguments` loop body of
`parse_keywords`: parse the comma-separated argument tokens of one
keyword specification into its role map.  A token ending in `c` marks
the context role (`arg = arg[:-1]`), otherwise the first such token
becomes `msgid` and later ones `msgid_plural`.  Indices are converted
from 1-based to 0-based.  `none` models the uncaught `IndexError` on an
empty token (`arg[-1]`) or `ValueError` from `int(arg)`, both fatal. -/
def parse_spec_args : List String → AList String Int → Option (AList String Int)
  | [], spec => some spec
  | arg :: rest, spec =>
    match arg.data.getLast? with
    | none => none
    | some last =>
      let digits := if last = 'c' then arg.data.dropLast else arg.data
      match pyInt digits with
      | none => none
      | some n =>
        if last = 'c' then
          parse_spec_args rest (alistSet spec "msgctx" (n - 1))
        else if alistContains spec "msgid" = false then
          parse_spec_args rest (alistSet spec "msgid" (n - 1))
        else
          parse_spec_args rest (alistSet spec "msgid_plural" (n - 1))

/-- The loop of `parse_keywords` with its accumulating `keywords`
dict.  Each specification string is split on `:`; a bare name maps to
`{"msgid": 0}`, otherwise only the first colon-separated group is
split on `,` and parsed. -/
def parse_keywords_aux (acc : AList String (AList String Int)) :
    List String → Option (AList String (AList String Int))
  | [] => some acc
  | s :: rest =>
    match pySplit ':' s with
    | [] => none
    | [funcname] => parse_keywords_aux (alistSet acc funcname [("msgid", 0)]) rest
    | funcname :: a1 :: _ =>
      match parse_spec_args (pySplit ',' a1) [] with
      | none => none
      | some spec => parse_keywords_aux (alistSet acc funcname spec) rest

/-- Source `parse_keywords(strings)`. -/
def parse_keywords (strings : List String) : Option (AList String (AList String Int)) :=
  parse_keywords_aux [] strings

/-- The list literal passed to `parse_keywords` at module scope. -/
def default_keyword_strings : List String :=
  ["_", "gettext", "dgettext:2", "ngettext:1,2", "dngettext:2,3",
   "pgettext:1c,2", "dpgettext:2c,3", "npgettext:1c,2,3", "dnpgettext:2c,3,4"]

/-- Source `marking_keywords = parse_keywords([...])`, the default keyword
set shipped with the tool.  Parsing the defaults succeeds, so the
`getD` default is never taken (see `marking_keywords_eq`). -/
def marking_keywords : AList String (AList String Int) :=
  (parse_keywords default_keyword_strings).getD []

theorem marking_keywords_eq :
    marking_keywords =
      [("_", [("msgid", 0)]),
       ("gettext", [("msgid", 0)]),
       ("dgettext", [("msgid", 1)]),
       ("ngettext", [("msgid", 0), ("msgid_plural", 1)]),
       ("dngettext", [("msgid", 1), ("msgid_plural", 2)]),
       ("pgettext", [("msgctx", 0), ("msgid", 1)]),
       ("dpgettext", [("msgctx", 1), ("msgid", 2)]),
       ("npgettext", [("msgctx", 0), ("msgid", 1), ("msgid_plural", 2)]),
       ("dnpgettext", [("msgctx", 1), ("msgid", 2), ("msgid_plural", 3)])] := by
  decide

/-- Python `arg[-1] == "c"` as the source tests it (false is only meaningful
for nonempty tokens; on an empty token the source raises before). -/
def endsInC (s : String) : Bool :=
  s.data.getLast? == some 'c'

theorem pyInt_ne_nil (cs : List Char) (n : Int) (h : pyInt cs = some n) : cs ≠ [] := by
  intro hc
  subst hc
  simp [pyInt, digitsVal] at h

theorem parse_spec_args_cons_plain (arg : String) (rest : List String) (spec : AList String Int)
    (n : Int) (h1 : pyInt arg.data = some n) (h2 : arg.data.getLast? ≠ some 'c') :
    parse_spec_args (arg :: rest) spec =
      if alistContains spec "msgid" = false then
        parse_spec_args rest (alistSet spec "msgid" (n - 1))
      else
        parse_spec_args rest (alistSet spec "msgid_plural" (n - 1)) := by
  have hne : arg.data ≠ [] := pyInt_ne_nil _ _ h1
  obtain ⟨last, hlast⟩ : ∃ l, arg.data.getLast? = some l := by
    cases h : arg.data.getLast? with
    | none => exact absurd (List.getLast?_eq_none_iff.mp h) hne
    | some l => exact ⟨l, rfl⟩
  have hlc : ¬ (last = 'c') := fun hh => h2 (by rw [hlast, hh])
  simp [parse_spec_args, hlast, hlc, h1]

theorem parse_spec_args_cons_ctx (arg : String) (rest : List String) (spec : AList String Int)
    (n : Int) (h1 : arg.data.getLast? = some 'c') (h2 : pyInt arg.data.dropLast = some n) :
    parse_spec_args (arg :: rest) spec = parse_spec_args rest (alistSet spec "msgctx" (n - 1)) := by
  simp [parse_spec_args, h1, h2]

/-- C1: `parse_keywords` maps `"f:2,3"` to a role map with id index 1
and plural index 2, `"f:2c,3"` to context index 1 and id index 2, and a
bare name to id index 0; generally, for an argument list of one
`c`-suffixed token and two plain tokens, the `c`-suffixed one becomes
the context role wherever it appears, while the plain ones become id
then id-plural in order, all converted from 1-based to 0-based. -/
theorem C1_parse_keywords_roles (p q c : String) (np nq nc : Int) (l : List String)
    (hp1 : pyInt p.data = some np) (hp2 : p.data.getLast? ≠ some 'c')
    (hq1 : pyInt q.data = some nq) (hq2 : q.data.getLast? ≠ some 'c')
    (hc1 : c.data.getLast? = some 'c') (hc2 : pyInt c.data.dropLast = some nc)
    (hl : l = [c, p, q] ∨ l = [p, c, q] ∨ l = [p, q, c]) :
    parse_keywords ["f:2,3"] = some [("f", [("msgid", 1), ("msgid_plural", 2)])]
    ∧ parse_keywords ["f:2c,3"] = some [("f", [("msgctx", 1), ("msgid", 2)])]
    ∧ parse_keywords ["f"] = some [("f", [("msgid", 0)])]
    ∧ (parse_spec_args l []).bind (fun spec => alistGet? spec "msgctx") = some (nc - 1)
    ∧ (parse_spec_args l []).bind (fun spec => alistGet? spec "msgid") = some (np - 1)
    ∧ (parse_spec_args l []).bind (fun spec => alistGet? spec "msgid_plural") = some (nq - 1) := by
  refine ⟨by decide, by decide, by decide, ?_⟩
  rcases hl with hl | hl | hl <;> subst hl
  · have hS : parse_spec_args [c, p, q] [] =
        some [("msgctx", nc - 1), ("msgid", np - 1), ("msgid_plural", nq - 1)] := by
      rw [parse_spec_args_cons_ctx _ _ _ nc hc1 hc2]
      rw [parse_spec_args_cons_plain _ _ _ np hp1 hp2]
      simp only [alistSet, alistContains, alistGet?]
      norm_num
      rw [parse_spec_args_cons_plain _ _ _ nq hq1 hq2]
      simp [alistSet, alistContains, alistGet?, parse_spec_args]
    rw [hS]
    simp [alistGet?]
  · have hS : parse_spec_args [p, c, q] [] =
        some [("msgid", np - 1), ("msgctx", nc - 1), ("msgid_plural", nq - 1)] := by
      rw [parse_spec_args_cons_plain _ _ _ np hp1 hp2]
      simp only [alistSet, alistContains, alistGet?]
      norm_num
      rw [parse_spec_args_cons_ctx _ _ _ nc hc1 hc2]
      rw [parse_spec_args_cons_plain _ _ _ nq hq1 hq2]
      simp [alistSet, alistContains, alistGet?, parse_spec_args]
    rw [hS]
    simp [alistGet?]
  · have hS : parse_spec_args [p, q, c] [] =
        some [("msgid", np - 1), ("msgid_plural", nq - 1), ("msgctx", nc - 1)] := by
      rw [parse_spec_args_cons_plain _ _ _ np hp1 hp2]
      simp only [alistSet, alistContains, alistGet?]
      norm_num
      rw [parse_spec_args_cons_plain _ _ _ nq hq1 hq2]
      simp only [alistSet, alistContains, alistGet?]
      norm_num
      rw [parse_spec_args_cons_ctx _ _ _ nc hc1 hc2]
      simp [alistSet, alistContains, alistGet?, parse_spec_args]
    rw [hS]
    simp [alistGet?]

/-- Witness for C1 at the concrete tokens of the claim:
`"f:2c,3"`-style arguments `["1c", "2", "3"]`. -/
theorem C1_parse_keywords_roles_witness :
    parse_keywords ["f:2,3"] = some [("f", [("msgid", 1), ("msgid_plural", 2)])]
    ∧ parse_keywords ["f:2c,3"] = some [("f", [("msgctx", 1), ("msgid", 2)])]
    ∧ parse_keywords ["f"] = some [("f", [("msgid", 0)])]
    ∧ (parse_spec_args ["1c", "2", "3"] []).bind (fun spec => alistGet? spec "msgctx") = some 0
    ∧ (parse_spec_args ["1c", "2", "3"] []).bind (fun spec => alistGet? spec "msgid") = some 1
    ∧ (parse_spec_args ["1c", "2", "3"] []).bind (fun spec => alistGet? spec "msgid_plural") = some 2 :=
  C1_parse_keywords_roles "2" "3" "1c" 2 3 1 ["1c", "2", "3"]
    (by decide) (by decide) (by decide) (by decide) (by decide) (by decide) (Or.inl rfl)

theorem parse_spec_args_contains_msgid (args : List String) :
    ∀ (acc spec : AList String Int), parse_spec_args args acc = some spec →
      alistContains spec "msgid" =
        (alistContains acc "msgid" || args.any (fun a => !(endsInC a))) := by
  induction args with
  | nil =>
    intro acc spec h
    simp [parse_spec_args] at h
    subst h
    simp
  | cons arg rest ih =>
    intro acc spec h
    cases hlast : arg.data.getLast? with
    | none => simp [parse_spec_args, hlast] at h
    | some last =>
      by_cases hc : last = 'c'
      · subst hc
        cases hpi : pyInt arg.data.dropLast with
        | none => simp [parse_spec_args, hlast, hpi] at h
        | some n =>
          have h' : parse_spec_args rest (alistSet acc "msgctx" (n - 1)) = some spec := by
            rw [parse_spec_args_cons_ctx _ _ _ n hlast hpi] at h
            exact h
          have hec : endsInC arg = true := by simp [endsInC, hlast]
          rw [ih _ _ h', alistContains_set]
          simp [hec]
      · cases hpi : pyInt arg.data with
        | none => simp [parse_spec_args, hlast, hc, hpi] at h
        | some n =>
          have hstep := parse_spec_args_cons_plain arg rest acc n hpi
            (by rw [hlast]; exact fun hh => hc (by injection hh))
          rw [hstep] at h
          have hec : endsInC arg = false := by simp [endsInC, hlast, hc]
          by_cases hm : alistContains acc "msgid" = false
          · rw [if_pos hm] at h
            rw [ih _ _ h, alistContains_set]
            simp [hec, hm]
          · rw [if_neg hm] at h
            rw [ih _ _ h, alistContains_set]
            have : alistContains acc "msgid" = true := by
              cases hv : alistContains acc "msgid"
              · exact absurd hv hm
              · rfl
            simp [hec, this]

/-- C6 counterexample: the specification string `"f:2c"` is accepted by
`parse_keywords`, and the role map it produces consists of the context
role only — it has no id role. -/
theorem C6_counterexample :
    parse_keywords ["f:2c"] = some [("f", [("msgctx", 1)])]
    ∧ alistContains ([("msgctx", 1)] : AList String Int) "msgid" = false := by
  decide

/-- C6 amended: a role map produced from a bare keyword name always has
an id role, and a role map produced from an argument specification has
an id role exactly when at least one listed token is not suffixed with
`c`; a specification listing only `c`-suffixed tokens yields a map
without an id role. -/
theorem C6_amended_id_role (args : List String) (spec : AList String Int)
    (h : parse_spec_args args [] = some spec) :
    alistContains spec "msgid" = args.any (fun a => !(endsInC a))
    ∧ alistContains ([("msgid", 0)] : AList String Int) "msgid" = true := by
  refine ⟨?_, by decide⟩
  rw [parse_spec_args_contains_msgid args [] spec h]
  simp [alistContains, alistGet?]

/-- Witness for C6 amended at the argument list `["2", "3c"]`. -/
theorem C6_amended_id_role_witness :
    alistContains ([("msgid", 1), ("msgctx", 2)] : AList String Int) "msgid" =
      (["2", "3c"].any (fun a => !(endsInC a)))
    ∧ alistContains ([("msgid", 0)] : AList String Int) "msgid" = true :=
  C6_amended_id_role ["2", "3c"] [("msgid", 1), ("msgctx", 2)] (by decide)

/-- C9 counterexample: the default keyword set does not have twelve
entries. -/
theorem C9_counterexample : ¬ (marking_keywords.length = 12) := by
  decide

/-- C9 amended: the default keyword set shipped with the tool contains
nine entries, covering id-only (`_`, `gettext`), namespaced id
(`dgettext`), plural (`ngettext`, `dngettext`), context (`pgettext`,
`dpgettext`) and namespaced plural-context (`npgettext`, `dnpgettext`)
combinations. -/
theorem C9_default_keywords : marking_keywords.length = 9
    ∧ marking_keywords =
      [("_", [("msgid", 0)]),
       ("gettext", [("msgid", 0)]),
       ("dgettext", [("msgid", 1)]),
       ("ngettext", [("msgid", 0), ("msgid_plural", 1)]),
       ("dngettext", [("msgid", 1), ("msgid_plural", 2)]),
       ("pgettext", [("msgctx", 0), ("msgid", 1)]),
       ("dpgettext", [("msgctx", 1), ("msgid", 2)]),
       ("npgettext", [("msgctx", 0), ("msgid", 1), ("msgid_plural", 2)]),
       ("dnpgettext", [("msgctx", 1), ("msgid", 2), ("msgid_plural", 3)])] := by
  refine ⟨?_, marking_keywords_eq⟩
  rw [marking_keywords_eq]
  rfl

/-! ## Merging user keywords with the defaults (`__main__`, line 395) -/

/-- Line 395, `args.marking_keywords = parse_keywords(args.marking_keywords) | marking_keywords`:
the keyword mapping used for extraction, built from the user-supplied
specification strings and the default set. -/
def merged_marking_keywords (user : List String) : Option (AList String (AList String Int)) :=
  (parse_keywords user).map (fun u => alistUnion u marking_keywords)

theorem alistGet?_union {κ α : Type} [DecidableEq κ] (d1 d2 : AList κ α) (k : κ)
    (hnd : (d2.map Prod.fst).Nodup) :
    alistGet? (alistUnion d1 d2) k =
      match alistGet? d2 k with
      | some v => some v
      | none => alistGet? d1 k := by
  induction d2 generalizing d1 with
  | nil => simp [alistUnion, alistGet?]
  | cons p rest ih =>
    obtain ⟨a, b⟩ := p
    have hrest : (rest.map Prod.fst).Nodup := (List.nodup_cons.mp (by simpa using hnd)).2
    have hanotin : a ∉ rest.map Prod.fst := (List.nodup_cons.mp (by simpa using hnd)).1
    have hfold : alistUnion d1 ((a, b) :: rest) = alistUnion (alistSet d1 a b) rest := by
      simp [alistUnion]
    rw [hfold, ih _ hrest]
    by_cases hak : a = k
    · subst hak
      have : alistGet? rest a = none := (alistGet?_eq_none_iff rest a).mpr hanotin
      simp [this, alistGet?, alistGet?_set]
    · have hget : alistGet? ((a, b) :: rest) k = alistGet? rest k := by
        simp [alistGet?, hak]
      rw [hget]
      cases alistGet? rest k with
      | none => simp [alistGet?_set, hak]
      | some v => simp

/-- C5 counterexample: merging the user specification `"gettext:2"`
(whose role map is `{msgid: 1}`) with the default set yields the
default role map `{msgid: 0}` for `gettext`, not the user's. -/
theorem C5_counterexample :
    (merged_marking_keywords ["gettext:2"]).bind (fun m => alistGet? m "gettext") =
      some [("msgid", 0)]
    ∧ (merged_marking_keywords ["gettext:2"]).bind (fun m => alistGet? m "gettext") ≠
      some [("msgid", 1)] := by
  decide

/-- C5 amended: the merge places the parsed user specifications on the
left of the dict union and the defaults on the right, so on a name
collision the default keyword set takes precedence; a user
specification survives only for names outside the default set. -/
theorem C5_merge_defaults_win (user : List String) (parsed : AList String (AList String Int))
    (k : String) (h : parse_keywords user = some parsed) :
    merged_marking_keywords user = some (alistUnion parsed marking_keywords)
    ∧ (∀ v, alistGet? marking_keywords k = some v →
        alistGet? (alistUnion parsed marking_keywords) k = some v)
    ∧ (alistGet? marking_keywords k = none →
        alistGet? (alistUnion parsed marking_keywords) k = alistGet? parsed k) := by
  have hu := alistGet?_union parsed marking_keywords k (by decide)
  refine ⟨by simp [merged_marking_keywords, h], ?_, ?_⟩
  · intro v hv
    rw [hu, hv]
  · intro hv
    rw [hu, hv]

/-- Witness for C5 amended at the colliding user specification
`"gettext:2"`. -/
theorem C5_merge_defaults_win_witness :
    merged_marking_keywords ["gettext:2"] =
      some (alistUnion [("gettext", [("msgid", 1)])] marking_keywords)
    ∧ alistGet? (alistUnion [("gettext", [("msgid", 1)])] marking_keywords) "gettext" =
        some [("msgid", 0)] :=
  ⟨(C5_merge_defaults_win ["gettext:2"] [("gettext", [("msgid", 1)])] "gettext" (by decide)).1,
   (C5_merge_defaults_win ["gettext:2"] [("gettext", [("msgid", 1)])] "gettext"
      (by decide)).2.1 [("msgid", 0)] (by decide)⟩

/-! ## String escaping (`escapes`, `normalize`) -/

/-- The `escapes` table: backslash, tab, carriage return, line feed and
double quote map to their two-character escape sequences. -/
def escapes : AList Char (List Char) :=
  [('\\', ['\\', '\\']),
   ('\t', ['\\', 't']),
   ('\r', ['\\', 'r']),
   ('\n', ['\\', 'n']),
   ('"', ['\\', '"'])]

/-- Source `escapes.get(c, c)`. -/
def escapeChar (c : Char) : List Char :=
  alistGetD escapes c [c]

/-- The character-list core of `normalize`: concatenate the escape (or
the character itself) for every character in order. -/
def normChars : List Char → List Char
  | [] => []
  | c :: cs => escapeChar c ++ normChars cs

/-- Source `normalize(string)`. -/
def normalize (s : String) : String :=
  String.mk (normChars s.data)

/-- Modelled from the spec: the inverse of the escape function
("applying the escape function ... then reversing it"), which the
repository itself does not contain.  A backslash starts a two-character
escape whose second character selects the original character; any
other character stands for itself; a trailing lone backslash or an
unknown escape has no preimage. -/
def unescapeChar? (d : Char) : Option Char :=
  if d = '\\' then some '\\'
  else if d = 't' then some '\t'
  else if d = 'r' then some '\r'
  else if d = 'n' then some '\n'
  else if d = '"' then some '"'
  else none

mutual

/-- Modelled from the spec: character-list core of the unescaper. -/
def denormChars : List Char → Option (List Char)
  | [] => some []
  | c :: rest =>
    if c = '\\' then denormEsc rest
    else (denormChars rest).map (fun l => c :: l)

/-- Modelled from the spec: decode the character following a
backslash; a dangling backslash has no preimage. -/
def denormEsc : List Char → Option (List Char)
  | [] => none
  | d :: rest =>
    match unescapeChar? d with
    | some u => (denormChars rest).map (fun l => u :: l)
    | none => none

end

/-- Modelled from the spec: the unescaper on strings. -/
def denormalize (s : String) : Option String :=
  (denormChars s.data).map String.mk

theorem denormChars_normChars (l : List Char) : denormChars (normChars l) = some l := by
  induction l with
  | nil => simp [normChars, denormChars]
  | cons c cs ih =>
    by_cases h1 : c = '\\'
    · subst h1
      simp [normChars, escapeChar, alistGetD, alistGet?, escapes, denormChars, denormEsc, unescapeChar?, ih]
    · by_cases h2 : c = '\t'
      · subst h2
        simp [normChars, escapeChar, alistGetD, alistGet?, escapes, denormChars, denormEsc, unescapeChar?, ih]
      · by_cases h3 : c = '\r'
        · subst h3
          simp [normChars, escapeChar, alistGetD, alistGet?, escapes, denormChars, denormEsc, unescapeChar?, ih]
        · by_cases h4 : c = '\n'
          · subst h4
            simp [normChars, escapeChar, alistGetD, alistGet?, escapes, denormChars, denormEsc,
              unescapeChar?, ih]
          · by_cases h5 : c = '"'
            · subst h5
              simp [normChars, escapeChar, alistGetD, alistGet?, escapes, denormChars, denormEsc,
                unescapeChar?, ih]
            · have hesc : escapeChar c = [c] := by
                simp [escapeChar, alistGetD, alistGet?, escapes,
                  Ne.symm h1, Ne.symm h2, Ne.symm h3, Ne.symm h4, Ne.symm h5]
              simp [normChars, hesc, denormChars, h1, ih]

/-- C7: escaping is lossless — unescaping the output of `normalize`
reproduces the original string exactly, for every string (in
particular for strings containing every entry of the escape table),
and `normalize` is injective. -/
theorem C7_normalize_roundtrip (s : String) :
    denormalize (normalize s) = some s
    ∧ ∀ t : String, normalize s = normalize t → s = t := by
  have hrt : ∀ u : String, denormalize (normalize u) = some u := by
    intro u
    show (denormChars (normChars u.data)).map String.mk = some u
    rw [denormChars_normChars]
    cases u
    rfl
  refine ⟨hrt s, ?_⟩
  intro t h
  have h2 : (some s : Option String) = some t := by
    rw [← hrt s, h, hrt t]
  exact Option.some_injective _ h2

/-- Witness for C7 at a string containing every entry of the escape
table. -/
theorem C7_normalize_roundtrip_witness :
    denormalize (normalize "a\\b\tc\rd\ne\"f") = some "a\\b\tc\rd\ne\"f"
    ∧ "a\\b\tc\rd\ne\"f" = "a\\b\tc\rd\ne\"f" :=
  ⟨(C7_normalize_roundtrip "a\\b\tc\rd\ne\"f").1,
   (C7_normalize_roundtrip "a\\b\tc\rd\ne\"f").2 "a\\b\tc\rd\ne\"f" rfl⟩

theorem mem_normChars (l : List Char) (c : Char) (h : c ∈ normChars l) :
    c ≠ '\n' ∧ c ≠ '\r' ∧ c ≠ '\t' := by
  induction l with
  | nil => simp [normChars] at h
  | cons a as ih =>
    rw [normChars, List.mem_append] at h
    rcases h with h | h
    · by_cases h1 : a = '\\'
      · subst h1
        simp [escapeChar, alistGetD, alistGet?, escapes] at h
        subst h
        decide
      · by_cases h2 : a = '\t'
        · subst h2
          simp [escapeChar, alistGetD, alistGet?, escapes] at h
          rcases h with h | h <;> subst h <;> decide
        · by_cases h3 : a = '\r'
          · subst h3
            simp [escapeChar, alistGetD, alistGet?, escapes] at h
            rcases h with h | h <;> subst h <;> decide
          · by_cases h4 : a = '\n'
            · subst h4
              simp [escapeChar, alistGetD, alistGet?, escapes] at h
              rcases h with h | h <;> subst h <;> decide
            · by_cases h5 : a = '"'
              · subst h5
                simp [escapeChar, alistGetD, alistGet?, escapes] at h
                rcases h with h | h <;> subst h <;> decide
              · have hesc : escapeChar a = [a] := by
                  simp [escapeChar, alistGetD, alistGet?, escapes,
                    Ne.symm h1, Ne.symm h2, Ne.symm h3, Ne.symm h4, Ne.symm h5]
                rw [hesc] at h
                simp at h
                subst h
                exact ⟨h4, h3, h2⟩
    · exact ih h

/-- C10 counterexample: the output of `normalize` on a string
containing a double quote does contain a literal double-quote
character (escaped by a preceding backslash). -/
theorem C10_counterexample :
    (normalize "\"").data = ['\\', '"'] ∧ '"' ∈ (normalize "\"").data := by
  decide

/-- C10 amended: the output of `normalize` contains no literal
newline, carriage-return, or tab character (double quotes may occur,
preceded by a backslash escape), so every quoted fragment the renderer
builds from it occupies a single output line. -/
theorem C10_no_control_chars (s : String) (c : Char) (h : c ∈ (normalize s).data) :
    c ≠ '\n' ∧ c ≠ '\r' ∧ c ≠ '\t' :=
  mem_normChars s.data c h

/-- Witness for C10 amended: the escaped backslash in the output of
`normalize "x\n"`. -/
theorem C10_no_control_chars_witness :
    ('\\' : Char) ≠ '\n' ∧ ('\\' : Char) ≠ '\r' ∧ ('\\' : Char) ≠ '\t' :=
  C10_no_control_chars "x\n" '\\' (by decide)

/-! ## The syntax tree, messages and options -/

/-- An `ast.Constant` value: a string, or any other constant
(`_is_string_const` only accepts the former). -/
inductive PyConst where
  | str (s : String)
  | otherConst
deriving DecidableEq

mutual

/-- The callee of an `ast.Call`: a plain `ast.Name` (carrying `id`), an
`ast.Attribute` (carrying its `value` subtree and final `attr`
component), or any other expression shape. -/
inductive PyFunc where
  | name (id : String)
  | attr (value : PyExpr) (attrname : String)
  | otherFunc

/-- A Python expression as far as the extractor observes it: a
constant, a call with positional arguments and a 1-based line number,
or any other node together with its child expressions (which
`generic_visit` still descends into). -/
inductive PyExpr where
  | constExpr (c : PyConst)
  | call (func : PyFunc) (args : List PyExpr) (lineno : Nat)
  | otherExpr (children : List PyExpr)

end

/-- The `Message` dataclass.  `msgid` is an `Option` because
`arguments.get("msgid")` yields `None` when a role map lacks the id
role. -/
structure Message where
  filename : String
  lineno : Nat
  msgid : Option String
  msgctx : Option String
  msgid_plural : Option String
  is_python_format : Bool
  comments : List String
deriving DecidableEq

/-- The configuration surface the core reads from the parsed
command-line options. -/
structure Opts where
  marking_keywords : AList String (AList String Int)
  verbose : Bool
  add_comments : Option String
  no_location : Bool
  width : Nat

/-- Python truthiness of `opts.add_comments` (`None` and the empty
string are falsy). -/
def pyTruthy : Option String → Bool
  | none => false
  | some s => !(s.data.isEmpty)

/-! ## `is_python_format`: the %-directive search

The verbose regular expression `python_format` is modelled as an
explicit backtracking matcher: after a `%`, each optional component
yields the set of possible remainders, and the directive matches when
some chain of choices ends at a conversion character.  `re.search`
tries every start position. -/

/-- Regex `\w` (ASCII word characters; the extracted literals considered
here contain no further unicode word characters). -/
def wordChar (c : Char) : Bool :=
  c.isAlphanum || c = '_'

/-- Conversion flags `[-#0 +]`. -/
def flagChar (c : Char) : Bool :=
  c = '-' || c = '#' || c = '0' || c = ' ' || c = '+'

/-- Length modifiers `[hlL]`. -/
def lengthModChar (c : Char) : Bool :=
  c = 'h' || c = 'l' || c = 'L'

/-- Conversion types `[diouxXeEfFgGcrs%]`. -/
def convChar (c : Char) : Bool :=
  c = 'd' || c = 'i' || c = 'o' || c = 'u' || c = 'x' || c = 'X' || c = 'e' || c = 'E' ||
  c = 'f' || c = 'F' || c = 'g' || c = 'G' || c = 'c' || c = 'r' || c = 's' || c = '%'

/-- Remainders after the optional mapping key `(\(([\w]+)\))?`. -/
def afterKey (cs : List Char) : List (List Char) :=
  match cs with
  | '(' :: rest =>
    (match rest.dropWhile wordChar with
     | ')' :: r => if (rest.takeWhile wordChar).isEmpty then [cs] else [r, cs]
     | _ => [cs])
  | _ => [cs]

/-- Remainders after one optional character from a class. -/
def afterOptChar (p : Char → Bool) (cs : List Char) : List (List Char) :=
  match cs with
  | c :: rest => if p c then [rest, cs] else [cs]
  | [] => [cs]

/-- Remainders after the optional width `(\*|\d+)?` (only the maximal
digit run can lead to a match, since no later component consumes a
digit). -/
def afterNum (cs : List Char) : List (List Char) :=
  match cs with
  | '*' :: rest => [rest, cs]
  | _ =>
    if (cs.takeWhile Char.isDigit).isEmpty then [cs]
    else [cs.dropWhile Char.isDigit, cs]

/-- Remainders after the optional precision `(\.(\*|\d+))?`. -/
def afterPrec (cs : List Char) : List (List Char) :=
  match cs with
  | '.' :: rest =>
    (match rest with
     | '*' :: r => [r, cs]
     | _ =>
       if (rest.takeWhile Char.isDigit).isEmpty then [cs]
       else [rest.dropWhile Char.isDigit, cs])
  | _ => [cs]

/-- Does a %-directive match starting exactly here? -/
def matchDirectiveAt (cs : List Char) : Bool :=
  match cs with
  | '%' :: rest =>
    (afterKey rest).any (fun r1 =>
      (afterOptChar flagChar r1).any (fun r2 =>
        (afterNum r2).any (fun r3 =>
          (afterPrec r3).any (fun r4 =>
            (afterOptChar lengthModChar r4).any (fun r5 =>
              match r5 with
              | t :: _ => convChar t
              | [] => false)))))
  | _ => false

/-- Source `is_python_format(msg)`: `python_format.search(msg)` succeeds. -/
def is_python_format (s : String) : Bool :=
  s.data.tails.any matchDirectiveAt

/-! ## Argument extraction and the call visitor -/

/-- Source `_is_string_const(node)`. -/
def _is_string_const : PyExpr → Bool
  | PyExpr.constExpr (PyConst.str _) => true
  | _ => false

/-- Python list indexing `l[i]`, including negative indices counting
from the end; `none` is an `IndexError`. -/
def pyIndex {α : Type} (l : List α) (i : Int) : Option α :=
  if 0 ≤ i then l.get? i.toNat
  else if 0 ≤ i + l.length then l.get? (i + l.length).toNat
  else none

/-- The two ways `extract_arguments` can fail: a raised
`GettextFormatError` (caught by the visitor) or an uncaught
`IndexError` from a negative index reaching past the front of the
argument list (fatal; not produced by any parsed keyword
specification with nonnegative indices). -/
inductive ExtractError where
  | formatError
  | indexError
deriving DecidableEq

/-- The loop of `extract_arguments` over `keyword_spec.items()` with
its accumulating `arguments` dict: too few arguments or a non-string
argument raise `GettextFormatError`. -/
def extract_arguments_aux (args : List PyExpr) (acc : AList String String) :
    AList String Int → Except ExtractError (AList String String)
  | [] => Except.ok acc
  | (key, idx) :: rest =>
    if (args.length : Int) ≤ idx then Except.error ExtractError.formatError
    else
      match pyIndex args idx with
      | none => Except.error ExtractError.indexError
      | some (PyExpr.constExpr (PyConst.str v)) =>
        extract_arguments_aux args (alistSet acc key v) rest
      | some _ => Except.error ExtractError.formatError

/-- Source `extract_arguments(node, keyword_spec)` (over the call's
positional argument list). -/
def extract_arguments (args : List PyExpr) (keyword_spec : AList String Int) :
    Except ExtractError (AList String String) :=
  extract_arguments_aux args [] keyword_spec

/-- Source `_get_funcname(node)`: the callee's simple name or final attribute
component, filtered for membership in the module-level default
`marking_keywords`. -/
def _get_funcname (f : PyFunc) : Option String :=
  match
    (match f with
     | PyFunc.name id => some id
     | PyFunc.attr _ attrname => some attrname
     | PyFunc.otherFunc => none) with
  | none => none
  | some name => if alistContains marking_keywords name then some name else none

/-- Source `comment_pattern.match(line)`: a line starting with `#` matches,
the group being everything after the `#`. -/
def commentMatch? (line : String) : Option String :=
  match line.data with
  | '#' :: rest => some (String.mk rest)
  | _ => none

/-- The backward walk of `_get_comments` from 0-based line index `i`,
collecting comment groups from bottom to top; it stops at the first
non-comment line or at the start of the file.  (An index beyond the
source is treated as a stop; with real syntax trees line numbers never
exceed the line count.) -/
def commentsAboveAux (sourceLines : List String) : Nat → List String
  | 0 =>
    (match sourceLines.get? 0 with
     | some l =>
       (match commentMatch? l with
        | some c => [c]
        | none => [])
     | none => [])
  | i + 1 =>
    (match sourceLines.get? (i + 1) with
     | some l =>
       (match commentMatch? l with
        | some c => c :: commentsAboveAux sourceLines i
        | none => [])
     | none => [])

/-- Source `_get_comments(node)`: comments on the contiguous run of
`#`-lines immediately above the call's line, in top-to-bottom order. -/
def _get_comments (sourceLines : List String) (lineno : Nat) : List String :=
  if lineno < 2 then [] else (commentsAboveAux sourceLines (lineno - 2)).reverse

/-- The non-recursive body of `visit_Call`: does this very call
produce a message?  `Except.ok []` covers every skip path, including a
caught `GettextFormatError`; `Except.error ()` models the uncaught
`IndexError`. -/
def visitCallSelf (opts : Opts) (sourceLines : List String) (filename : String)
    (f : PyFunc) (args : List PyExpr) (lineno : Nat) : Except Unit (List Message) :=
  match _get_funcname f with
  | none => Except.ok []
  | some funcname =>
    if funcname = "" then Except.ok []
    else
      match alistGet? opts.marking_keywords funcname with
      | none => Except.ok []
      | some keyword_spec =>
        match extract_arguments args keyword_spec with
        | Except.error ExtractError.formatError => Except.ok []
        | Except.error ExtractError.indexError => Except.error ()
        | Except.ok arguments =>
          let comments :=
            if pyTruthy opts.add_comments then _get_comments sourceLines lineno else []
          let python_format :=
            is_python_format (alistGetD arguments "msgid" "")
              || is_python_format (alistGetD arguments "msgid_plural" "")
          Except.ok [{ filename := filename, lineno := lineno,
                       msgid := alistGet? arguments "msgid",
                       msgctx := alistGet? arguments "msgctx",
                       msgid_plural := alistGet? arguments "msgid_plural",
                       is_python_format := python_format, comments := comments }]

mutual

/-- The visitor on one expression: a call first contributes its own
message (`visit_Call` body), then `generic_visit` descends into the
callee subtree and the arguments; every other node just descends. -/
def visitExpr (opts : Opts) (sourceLines : List String) (filename : String) :
    PyExpr → Except Unit (List Message)
  | PyExpr.constExpr _ => Except.ok []
  | PyExpr.call f args lineno =>
    Except.bind (visitCallSelf opts sourceLines filename f args lineno) (fun m =>
      Except.bind (visitFuncChildren opts sourceLines filename f) (fun mf =>
        Except.bind (visitExprs opts sourceLines filename args) (fun ma =>
          Except.ok (m ++ mf ++ ma))))
  | PyExpr.otherExpr children => visitExprs opts sourceLines filename children

/-- Descend into the callee: only an attribute access has an
expression child. -/
def visitFuncChildren (opts : Opts) (sourceLines : List String) (filename : String) :
    PyFunc → Except Unit (List Message)
  | PyFunc.attr v _ => visitExpr opts sourceLines filename v
  | _ => Except.ok []

/-- Visit a list of sibling expressions in order, concatenating their
messages. -/
def visitExprs (opts : Opts) (sourceLines : List String) (filename : String) :
    List PyExpr → Except Unit (List Message)
  | [] => Except.ok []
  | e :: es =>
    Except.bind (visitExpr opts sourceLines filename e) (fun m1 =>
      Except.bind (visitExprs opts sourceLines filename es) (fun m2 =>
        Except.ok (m1 ++ m2)))

end

/-- C2: when a call's callee resolves to a registered keyword but
`extract_arguments` raises `GettextFormatError` (required index beyond
the positional arguments, or a non-string-literal argument), the call
itself contributes no message while its subtrees are still visited;
and visiting a concatenation of sibling expressions concatenates their
messages, so the other calls of the file still produce theirs. -/
theorem C2_malformed_call_skipped (opts : Opts) (sourceLines : List String) (filename : String)
    (f : PyFunc) (args : List PyExpr) (lineno : Nat) (fn : String) (spec : AList String Int)
    (h1 : _get_funcname f = some fn) (h2 : fn ≠ "")
    (h3 : alistGet? opts.marking_keywords fn = some spec)
    (h4 : extract_arguments args spec = Except.error ExtractError.formatError) :
    visitExpr opts sourceLines filename (PyExpr.call f args lineno) =
      Except.bind (visitFuncChildren opts sourceLines filename f) (fun mf =>
        Except.bind (visitExprs opts sourceLines filename args) (fun ma =>
          Except.ok (mf ++ ma)))
    ∧ ∀ es1 es2, visitExprs opts sourceLines filename (es1 ++ es2) =
        Except.bind (visitExprs opts sourceLines filename es1) (fun m1 =>
          Except.bind (visitExprs opts sourceLines filename es2) (fun m2 =>
            Except.ok (m1 ++ m2))) := by
  constructor
  · have hself : visitCallSelf opts sourceLines filename f args lineno = Except.ok [] := by
      simp [visitCallSelf, h1, h2, h3, h4]
    simp [visitExpr, hself, Except.bind]
  · intro es1 es2
    induction es1 with
    | nil =>
      cases h : visitExprs opts sourceLines filename es2 <;>
        simp [visitExprs, Except.bind, h]
    | cons e es ih =>
      have hstep : visitExprs opts sourceLines filename ((e :: es) ++ es2) =
          Except.bind (visitExpr opts sourceLines filename e) (fun m1 =>
            Except.bind (visitExprs opts sourceLines filename (es ++ es2)) (fun m2 =>
              Except.ok (m1 ++ m2))) := by
        simp [visitExprs]
      rw [hstep, ih]
      cases hv1 : visitExpr opts sourceLines filename e with
      | error u => simp [visitExprs, Except.bind, hv1]
      | ok m1 =>
        cases hv2 : visitExprs opts sourceLines filename es with
        | error u => simp [visitExprs, Except.bind, hv1, hv2]
        | ok m2 =>
          cases hv3 : visitExprs opts sourceLines filename es2 with
          | error u => simp [visitExprs, Except.bind, hv1, hv2, hv3]
          | ok m3 => simp [visitExprs, Except.bind, hv1, hv2, hv3]

/-- The options used by the concrete walk witnesses: default keyword
set, everything else at its parsed default. -/
def opts_default : Opts :=
  { marking_keywords := marking_keywords, verbose := false, add_comments := none,
    no_location := false, width := 80 }

/-- Witness for C2: `_()` with no arguments is skipped, while the
sibling call `_("hello")` in the same sequence still yields its
message. -/
theorem C2_malformed_call_skipped_witness :
    visitExpr opts_default [] "t.py" (PyExpr.call (PyFunc.name "_") [] 1) = Except.ok []
    ∧ visitExprs opts_default [] "t.py"
        [PyExpr.call (PyFunc.name "_") [] 1,
         PyExpr.call (PyFunc.name "_") [PyExpr.constExpr (PyConst.str "hello")] 2] =
      Except.ok [{ filename := "t.py", lineno := 2, msgid := some "hello", msgctx := none,
                   msgid_plural := none, is_python_format := false, comments := [] }] := by
  have h := C2_malformed_call_skipped opts_default [] "t.py" (PyFunc.name "_") [] 1 "_"
    [("msgid", 0)] rfl (by decide) rfl rfl
  refine ⟨?_, ?_⟩
  · rw [h.1]
    rfl
  · rw [show ([PyExpr.call (PyFunc.name "_") [] 1,
         PyExpr.call (PyFunc.name "_") [PyExpr.constExpr (PyConst.str "hello")] 2] : List PyExpr) =
        [PyExpr.call (PyFunc.name "_") [] 1] ++
          [PyExpr.call (PyFunc.name "_") [PyExpr.constExpr (PyConst.str "hello")] 2] from rfl,
      h.2]
    rfl

/-! ## Message deduplication (`dedup_messages`) -/

/-- The grouping key `(msg.msgctx, msg.msgid)`. -/
def msgKey (m : Message) : Option String × Option String :=
  (m.msgctx, m.msgid)

/-- The loop body of `dedup_messages` on the ordered `combined` dict:
a new key appends a fresh singleton group, an existing key appends the
message to its group in place. -/
def dedupStep (combined : AList (Option String × Option String) (List Message))
    (msg : Message) : AList (Option String × Option String) (List Message) :=
  match alistGet? combined (msgKey msg) with
  | none => combined ++ [(msgKey msg, [msg])]
  | some g => alistSet combined (msgKey msg) (g ++ [msg])

/-- Source `dedup_messages(messages)`: the insertion-ordered dict from keys to
groups of occurrences. -/
def dedup_messages (messages : List Message) :
    AList (Option String × Option String) (List Message) :=
  messages.foldl dedupStep []

/-- Specification-side description of group order: the distinct
elements of a list in first-occurrence order, excluding those already
`seen`. -/
def newKeysFrom {κ : Type} [DecidableEq κ] (seen : List κ) : List κ → List κ
  | [] => []
  | k :: ks => if k ∈ seen then newKeysFrom seen ks else k :: newKeysFrom (k :: seen) ks

theorem newKeysFrom_congr {κ : Type} [DecidableEq κ] :
    ∀ (l : List κ) (s1 s2 : List κ), (∀ x, x ∈ s1 ↔ x ∈ s2) →
      newKeysFrom s1 l = newKeysFrom s2 l := by
  intro l
  induction l with
  | nil => intro s1 s2 h; rfl
  | cons k ks ih =>
    intro s1 s2 h
    by_cases hk : k ∈ s1
    · rw [newKeysFrom, newKeysFrom, if_pos hk, if_pos ((h k).mp hk)]
      exact ih s1 s2 h
    · rw [newKeysFrom, newKeysFrom, if_neg hk, if_neg (fun hh => hk ((h k).mpr hh))]
      refine congrArg (k :: ·) (ih (k :: s1) (k :: s2) ?_)
      intro x
      simp [h x]

theorem alistGet?_mem_keys {κ α : Type} [DecidableEq κ] (d : AList κ α) (k : κ) (v : α)
    (h : alistGet? d k = some v) : k ∈ d.map Prod.fst := by
  by_contra hk
  rw [(alistGet?_eq_none_iff d k).mpr hk] at h
  cases h

theorem dedup_foldl_keys :
    ∀ (msgs : List Message) (acc : AList (Option String × Option String) (List Message)),
      (msgs.foldl dedupStep acc).map Prod.fst =
        acc.map Prod.fst ++ newKeysFrom (acc.map Prod.fst) (msgs.map msgKey) := by
  intro msgs
  induction msgs with
  | nil => intro acc; simp [newKeysFrom]
  | cons m rest ih =>
    intro acc
    rw [List.foldl_cons, ih (dedupStep acc m), List.map_cons]
    cases hg : alistGet? acc (msgKey m) with
    | some g =>
      have hmem : msgKey m ∈ acc.map Prod.fst := alistGet?_mem_keys acc _ g hg
      have hkeys : (dedupStep acc m).map Prod.fst = acc.map Prod.fst := by
        rw [dedupStep, hg]
        exact alistKeys_set_of_mem acc _ (g ++ [m]) hmem
      rw [hkeys, newKeysFrom, if_pos hmem]
    | none =>
      have hnmem : msgKey m ∉ acc.map Prod.fst := (alistGet?_eq_none_iff acc _).mp hg
      have hkeys : (dedupStep acc m).map Prod.fst = acc.map Prod.fst ++ [msgKey m] := by
        rw [dedupStep, hg]
        simp
      rw [hkeys, newKeysFrom, if_neg hnmem]
      rw [newKeysFrom_congr (rest.map msgKey) (acc.map Prod.fst ++ [msgKey m])
        (msgKey m :: acc.map Prod.fst) (by intro x; simp [or_comm])]
      simp

theorem dedup_foldl_get :
    ∀ (msgs : List Message) (acc : AList (Option String × Option String) (List Message))
      (k : Option String × Option String),
      alistGet? (msgs.foldl dedupStep acc) k =
        (match alistGet? acc k with
         | some g => some (g ++ msgs.filter (fun m => msgKey m = k))
         | none =>
           if (msgs.map msgKey).contains k then
             some (msgs.filter (fun m => msgKey m = k))
           else none) := by
  intro msgs
  induction msgs with
  | nil =>
    intro acc k
    cases hg : alistGet? acc k <;> simp [List.foldl_nil, hg]
  | cons m rest ih =>
    intro acc k
    rw [List.foldl_cons, ih (dedupStep acc m) k]
    by_cases hk : msgKey m = k
    · subst hk
      have hfilter : (m :: rest).filter (fun x => msgKey x = msgKey m) =
          m :: rest.filter (fun x => msgKey x = msgKey m) := by
        simp [List.filter_cons]
      cases hg : alistGet? acc (msgKey m) with
      | some g =>
        have hacc' : alistGet? (dedupStep acc m) (msgKey m) = some (g ++ [m]) := by
          rw [dedupStep, hg, alistGet?_set, if_pos rfl]
        simp only [hacc', hg, hfilter]
        simp
      | none =>
        have hacc' : alistGet? (dedupStep acc m) (msgKey m) = some [m] := by
          rw [dedupStep, hg, alistGet?_append, hg]
          simp [alistGet?]
        simp only [hacc', hg, hfilter]
        simp
    · have hfilter : (m :: rest).filter (fun x => msgKey x = k) =
          rest.filter (fun x => msgKey x = k) := by
        simp [List.filter_cons, hk]
      have hcont : ((m :: rest).map msgKey).contains k = ((rest).map msgKey).contains k := by
        simp [List.contains_cons, hk, Ne.symm hk]
      have hacc' : alistGet? (dedupStep acc m) k = alistGet? acc k := by
        cases hg : alistGet? acc (msgKey m) with
        | some g => rw [dedupStep, hg, alistGet?_set, if_neg hk]
        | none =>
          rw [dedupStep, hg, alistGet?_append]
          cases hgk : alistGet? acc k <;> simp [alistGet?, hk]
      rw [hacc', hfilter, hcont]

/-- C3: deduplication is stable grouping by (context, id): the groups
of `dedup_messages` appear in first-occurrence order of their keys,
and the group of key `k` is exactly the subsequence of the input
messages whose key is `k` (so the first occurrence creates the group
at the next position and later occurrences append to it in discovery
order). -/
theorem C3_dedup_messages_grouping (messages : List Message) :
    (dedup_messages messages).map Prod.fst = newKeysFrom [] (messages.map msgKey)
    ∧ ∀ k, alistGet? (dedup_messages messages) k =
        (if (messages.map msgKey).contains k then
          some (messages.filter (fun m => msgKey m = k))
         else none) := by
  constructor
  · rw [dedup_messages, dedup_foldl_keys messages []]
    rfl
  · intro k
    rw [dedup_messages, dedup_foldl_get messages [] k]
    rfl

/-! ## Column-bounded wrapping

`format_string` delegates to `textwrap.wrap(line, width, expand_tabs=False,
replace_whitespace=False, drop_whitespace=False)` from the Python
standard library, which is not part of this repository.  Modelled from
the spec ("re-wrap the line into width-bounded fragments ... preserving
exact whitespace") and the stdlib's documented greedy algorithm: the
text is split into maximal runs of whitespace and non-whitespace,
whole runs are packed greedily onto lines, and a run longer than the
width is broken at the remaining space.  (The stdlib's optional
hyphen-aware break points are not modelled; no claim here constrains
fragment boundaries at hyphens.) -/

/-- The whitespace set of `textwrap` (`\t\n\x0b\x0c\r` and space). -/
def textwrapWs (c : Char) : Bool :=
  c = '\t' || c = '\n' || c = '\x0b' || c = '\x0c' || c = '\r' || c = ' '

/-- Split into maximal same-class runs; `cur` holds the current run
reversed, `ws` its class. -/
def chunkifyAux (ws : Bool) (cur : List Char) : List Char → List (List Char)
  | [] => [cur.reverse]
  | c :: rest =>
    if textwrapWs c = ws then chunkifyAux ws (c :: cur) rest
    else cur.reverse :: chunkifyAux (textwrapWs c) [c] rest

/-- Stdlib `_split(text)` (without hyphen break points): maximal whitespace
and non-whitespace runs, in order. -/
def chunkify : List Char → List (List Char)
  | [] => []
  | c :: rest => chunkifyAux (textwrapWs c) [c] rest

/-- Total number of characters in a chunk list. -/
def chunksLen (chunks : List (List Char)) : Nat :=
  (chunks.map List.length).sum

/-- The inner greedy loop of `_wrap_chunks`: move whole chunks onto
the current line while the line stays within `width`. -/
def fillLine (width : Nat) (cur : List Char) : List (List Char) → List Char × List (List Char)
  | [] => (cur, [])
  | c :: rest =>
    if cur.length + c.length ≤ width then fillLine width (cur ++ c) rest
    else (cur, c :: rest)

/-- The outer loop of `_wrap_chunks` (with `drop_whitespace=False` and
no indents): fill a line greedily; if the next chunk alone exceeds the
width, break it at the space left on the line (`_handle_long_word`
with `break_long_words=True`); emit nonempty lines.  `fuel` bounds the
number of outer iterations; every iteration that recurses consumes at
least one character, so `chunksLen chunks + 1` always suffices
(`wrapGo_fuel_irrelevant`). -/
def wrapGo (width : Nat) : Nat → List (List Char) → List (List Char)
  | 0, _ => []
  | _, [] => []
  | fuel + 1, chunks =>
    match fillLine width [] chunks with
    | (cur, []) => if cur.isEmpty then [] else [cur]
    | (cur, c :: rest) =>
      if width < c.length then
        let spaceLeft := if width < 1 then 1 else width - cur.length
        (if (cur ++ c.take spaceLeft).isEmpty then [] else [cur ++ c.take spaceLeft]) ++
          wrapGo width fuel (c.drop spaceLeft :: rest)
      else
        (if cur.isEmpty then [] else [cur]) ++ wrapGo width fuel (c :: rest)

/-- Stdlib `_wrap_chunks` on a chunk list, with adequate fuel. -/
def wrapLines (width : Nat) (chunks : List (List Char)) : List (List Char) :=
  wrapGo width (chunksLen chunks + 1) chunks

/-- Stdlib `textwrap.wrap(s, width, expand_tabs=False,
replace_whitespace=False, drop_whitespace=False)`. -/
def textwrap_wrap (width : Nat) (s : String) : List String :=
  (wrapLines width (chunkify s.data)).map String.mk

/-! ## The renderer (`format_*`) -/

/-- Source `format_comments(comments)`. -/
def format_comments (comments : List String) : String :=
  pyJoin "\n" (comments.map (fun comment => "#. " ++ comment))

/-- The comment-collecting loop at the top of `format_entry`: one
formatted block per message, blocks that format to the empty (falsy)
string skipped. -/
def entryComments : List Message → List String
  | [] => []
  | msg :: rest =>
    if format_comments msg.comments = "" then entryComments rest
    else format_comments msg.comments :: entryComments rest

/-- Stand-in for `messages[0]` on an empty group; `dedup_messages`
only ever produces nonempty groups, where the source would otherwise
raise `IndexError`. -/
def defaultMessage : Message :=
  { filename := "", lineno := 0, msgid := none, msgctx := none, msgid_plural := none,
    is_python_format := false, comments := [] }

/-- Source `format_file_occurrences(messages, opts)`: pack `path:line` tokens
onto `#:` lines within the width. -/
def format_file_occurrences (messages : List Message) (opts : Opts) : String :=
  let m0 := messages.headD defaultMessage
  let init : List String := ["#: " ++ m0.filename ++ ":" ++ toString m0.lineno]
  let lines := (messages.drop 1).foldl (fun lines msg =>
    let occurrence := msg.filename ++ ":" ++ toString msg.lineno
    match lines.getLast? with
    | some last =>
      if (last ++ " " ++ occurrence).length ≤ opts.width then
        lines.dropLast ++ [last ++ " " ++ occurrence]
      else lines ++ ["#: " ++ occurrence]
    | none => lines) init
  pyJoin "\n" lines

/-- Source `format_flag(flag)`. -/
def format_flag (flag : String) : String :=
  "#, " ++ flag

/-- Source `format_string(prefix, string, opts)`.  A single-line value that
fits is emitted as one `prefix "value"` line; one that does not fit is
emitted as the literal line `msgid ""` (hardcoded for every prefix)
followed by quoted wrapped fragments of width `opts.width - 2`.  A
multi-line value gets `\n` appended to every line but the last before
escaping, and only the quoted fragments are emitted (no key line at
all). -/
def format_string (pfx : String) (string : String) (opts : Opts) : String :=
  match pySplit '\n' string with
  | [l] =>
    let line := normalize l
    if (pfx ++ " \"" ++ line ++ "\"").length ≤ opts.width then
      pfx ++ " \"" ++ line ++ "\""
    else
      "msgid \"\"\n" ++
        pyJoin "\n" ((textwrap_wrap (opts.width - 2) line).map (fun x => "\"" ++ x ++ "\""))
  | ls =>
    let output := ls.enum.flatMap (fun p =>
      if p.1 = ls.length - 1 then textwrap_wrap (opts.width - 2) (normalize p.2)
      else textwrap_wrap (opts.width - 2) (normalize (p.2 ++ "\n")))
    pyJoin "\n" (output.map (fun x => "\"" ++ x ++ "\""))

/-- Source `format_msgctx`. -/
def format_msgctx (string : String) (opts : Opts) : String :=
  format_string "msgctx" string opts

/-- Source `format_msgid`. -/
def format_msgid (string : String) (opts : Opts) : String :=
  format_string "msgid" string opts

/-- Source `format_plural`. -/
def format_plural (string : String) (opts : Opts) : String :=
  format_string "msgid_plural" string opts

/-- Source `format_entry(messages, opts)`: comments, locations, format flag,
context, id, then `msgstr` skeleton(s), in fixed order.  The id passed
to `format_msgid` is `messages[0].msgid`; a `None` id (possible only
for keyword specs without an id role) would raise inside
`format_string`, modelled by the `getD ""` default never taken on
id-carrying groups. -/
def format_entry (messages : List Message) (opts : Opts) : String :=
  let m0 := messages.headD defaultMessage
  let o1 : String :=
    if opts.add_comments ≠ none then
      (let comments := entryComments messages
       if comments ≠ [] then pyJoin "\n" comments ++ "\n" else "")
    else ""
  let o2 := o1 ++
    (if opts.no_location = false then format_file_occurrences messages opts ++ "\n" else "")
  let o3 := o2 ++ (if m0.is_python_format then format_flag "python-format" ++ "\n" else "")
  let o4 := o3 ++
    (match m0.msgctx with
     | some ctx => format_msgctx ctx opts ++ "\n"
     | none => "")
  let o5 := o4 ++ format_msgid (m0.msgid.getD "") opts ++ "\n"
  match m0.msgid_plural with
  | none => o5 ++ "msgstr \"\""
  | some plural => o5 ++ format_plural plural opts ++ "\nmsgstr[0] \"\"" ++ "\nmsgstr[1] \"\""

/-- Split a rendered block into its output lines. -/
def linesOf (s : String) : List String :=
  pySplit '\n' s

theorem fillLine_spec (chunks : List (List Char)) :
    ∀ (width : Nat) (cur : List Char),
      (fillLine width cur chunks).1.length + chunksLen (fillLine width cur chunks).2 =
        cur.length + chunksLen chunks
      ∧ ∀ c rest, (fillLine width cur chunks).2 = c :: rest →
          width < (fillLine width cur chunks).1.length + c.length := by
  induction chunks with
  | nil =>
    intro width cur
    refine ⟨by simp [fillLine, chunksLen], ?_⟩
    intro c rest h
    simp [fillLine] at h
  | cons c0 rest0 ih =>
    intro width cur
    by_cases hfit : cur.length + c0.length ≤ width
    · have heq : fillLine width cur (c0 :: rest0) = fillLine width (cur ++ c0) rest0 := by
        simp [fillLine, hfit]
      rw [heq]
      obtain ⟨ih1, ih2⟩ := ih width (cur ++ c0)
      refine ⟨?_, ih2⟩
      rw [ih1]
      simp [chunksLen]
      omega
    · have heq : fillLine width cur (c0 :: rest0) = (cur, c0 :: rest0) := by
        simp [fillLine, hfit]
      rw [heq]
      refine ⟨rfl, ?_⟩
      intro c rest h
      have h' : c0 :: rest0 = c :: rest := h
      have hc : c0 = c := by injection h'
      subst hc
      show width < cur.length + c0.length
      omega

/-- The fuel given to `wrapGo` is irrelevant as soon as it exceeds the
total character count: every recursing iteration consumes at least one
character.  In particular `wrapLines` computes the stdlib's fixpoint. -/
theorem wrapGo_fuel_irrelevant :
    ∀ (n width fuel1 fuel2 : Nat) (chunks : List (List Char)),
      chunksLen chunks ≤ n → chunksLen chunks < fuel1 → chunksLen chunks < fuel2 →
      wrapGo width fuel1 chunks = wrapGo width fuel2 chunks := by
  intro n
  induction n with
  | zero =>
    intro width fuel1 fuel2 chunks h0 h1 h2
    obtain ⟨f1, rfl⟩ : ∃ f1, fuel1 = f1 + 1 := ⟨fuel1 - 1, by omega⟩
    obtain ⟨f2, rfl⟩ : ∃ f2, fuel2 = f2 + 1 := ⟨fuel2 - 1, by omega⟩
    cases chunks with
    | nil => rfl
    | cons ch chs =>
      obtain ⟨hs1, hs2⟩ := fillLine_spec (ch :: chs) width []
      cases hfl : fillLine width [] (ch :: chs) with
      | mk cur rem =>
        rw [hfl] at hs1 hs2
        cases rem with
        | nil => simp [wrapGo, hfl]
        | cons c rest =>
          exfalso
          have hlt := hs2 c rest rfl
          have hcl : chunksLen (c :: rest) = c.length + chunksLen rest := by
            simp [chunksLen]
          simp only [List.length_nil] at hs1 hlt
          omega
  | succ k ih =>
    intro width fuel1 fuel2 chunks h0 h1 h2
    obtain ⟨f1, rfl⟩ : ∃ f1, fuel1 = f1 + 1 := ⟨fuel1 - 1, by omega⟩
    obtain ⟨f2, rfl⟩ : ∃ f2, fuel2 = f2 + 1 := ⟨fuel2 - 1, by omega⟩
    cases chunks with
    | nil => rfl
    | cons ch chs =>
      obtain ⟨hs1, hs2⟩ := fillLine_spec (ch :: chs) width []
      cases hfl : fillLine width [] (ch :: chs) with
      | mk cur rem =>
        rw [hfl] at hs1 hs2
        cases rem with
        | nil => simp [wrapGo, hfl]
        | cons c rest =>
          have hlt := hs2 c rest rfl
          have hcl : chunksLen (c :: rest) = c.length + chunksLen rest := by
            simp [chunksLen]
          simp only [List.length_nil] at hs1 hlt
          by_cases hbig : width < c.length
          · by_cases hw : width < 1
            · have hdrop : chunksLen (c.tail :: rest) = (c.length - 1) + chunksLen rest := by
                simp [chunksLen]
              have hih := ih width f1 f2 (c.tail :: rest)
                (by omega) (by omega) (by omega)
              simp [wrapGo, hfl, hbig, hw, hih]
            · have hdrop : chunksLen (c.drop (width - cur.length) :: rest) =
                  (c.length - (width - cur.length)) + chunksLen rest := by
                simp [chunksLen]
              have hih := ih width f1 f2 (c.drop (width - cur.length) :: rest)
                (by omega) (by omega) (by omega)
              simp [wrapGo, hfl, hbig, hw, hih]
          · have hcur : 1 ≤ cur.length := by omega
            have hih := ih width f1 f2 (c :: rest) (by omega) (by omega) (by omega)
            simp [wrapGo, hfl, hbig, hih]

/-- Options with width 20, as in the spec's wrapping scenario. -/
def opts_width20 : Opts :=
  { marking_keywords := [], verbose := false, add_comments := none,
    no_location := true, width := 20 }

/-- C4 evaluated at the failing input: a 26-character single-line
value at width 20 wraps into width-minus-2-bounded fragments whose
concatenation restores the escaped value, but `format_string` emits
the hardcoded key line `msgid ""` even for the context and plural
keys — the claim's "the key followed by an empty string on the key
line" holds only for `msgid` itself. -/
theorem C4_hardcoded_msgid_key_line :
    format_msgctx "aaaaaaaaaaaaaaaaaaaaaaaaaa" opts_width20 =
      "msgid \"\"\n\"aaaaaaaaaaaaaaaaaa\"\n\"aaaaaaaa\""
    ∧ format_plural "aaaaaaaaaaaaaaaaaaaaaaaaaa" opts_width20 =
      "msgid \"\"\n\"aaaaaaaaaaaaaaaaaa\"\n\"aaaaaaaa\""
    ∧ format_msgid "aaaaaaaaaaaaaaaaaaaaaaaaaa" opts_width20 =
      "msgid \"\"\n\"aaaaaaaaaaaaaaaaaa\"\n\"aaaaaaaa\""
    ∧ pyJoin "" (textwrap_wrap 18 (normalize "aaaaaaaaaaaaaaaaaaaaaaaaaa")) =
      normalize "aaaaaaaaaaaaaaaaaaaaaaaaaa" := by
  decide

/-! ## Translator-comment rendering (C8) -/

theorem string_mk_data (s : String) : String.mk s.data = s := by
  cases s
  rfl

theorem splitOnCharAux_no_sep (sep : Char) :
    ∀ (l cur : List Char), (∀ x ∈ l, x ≠ sep) →
      splitOnCharAux sep l cur = [cur.reverse ++ l] := by
  intro l
  induction l with
  | nil => intro cur h; simp [splitOnCharAux]
  | cons c rest ih =>
    intro cur h
    have hc : ¬ (c = sep) := h c (by simp)
    rw [splitOnCharAux, if_neg hc, ih (c :: cur) (fun x hx => h x (by simp [hx]))]
    simp

theorem splitOnCharAux_append_sep (sep : Char) :
    ∀ (l1 : List Char) (l2 : List Char) (cur : List Char), (∀ x ∈ l1, x ≠ sep) →
      splitOnCharAux sep (l1 ++ sep :: l2) cur =
        (cur.reverse ++ l1) :: splitOnCharAux sep l2 [] := by
  intro l1
  induction l1 with
  | nil => intro l2 cur h; simp [splitOnCharAux]
  | cons c rest ih =>
    intro l2 cur h
    have hc : ¬ (c = sep) := h c (by simp)
    rw [List.cons_append, splitOnCharAux, if_neg hc,
      ih l2 (c :: cur) (fun x hx => h x (by simp [hx]))]
    simp

theorem linesOf_no_newline (s : String) (h : ∀ x ∈ s.data, x ≠ '\n') :
    linesOf s = [s] := by
  rw [linesOf, pySplit, splitOnCharAux_no_sep '\n' s.data [] h]
  simp [string_mk_data]

theorem linesOf_pyJoinNL :
    ∀ (ss : List String), ss ≠ [] → (∀ s ∈ ss, ∀ x ∈ s.data, x ≠ '\n') →
      linesOf (pyJoin "\n" ss) = ss := by
  intro ss
  induction ss with
  | nil => intro h; exact absurd rfl h
  | cons x xs ih =>
    intro hne h
    cases xs with
    | nil => exact linesOf_no_newline x (h x (by simp))
    | cons y t =>
      have hdata : (pyJoin "\n" (x :: y :: t)).data =
          x.data ++ '\n' :: (pyJoin "\n" (y :: t)).data := by
        rw [pyJoin]
        · rw [String.data_append, String.data_append]
          have hnl : ("\n" : String).data = ['\n'] := rfl
          rw [hnl, List.append_assoc]
          rfl
        · exact List.cons_ne_nil y t
      rw [linesOf, pySplit, hdata,
        splitOnCharAux_append_sep '\n' x.data _ [] (h x (by simp))]
      have hrest := ih (List.cons_ne_nil y t) (fun s hs => h s (by simp [hs]))
      rw [linesOf, pySplit] at hrest
      simp only [List.map_cons, List.reverse_nil, List.nil_append, hrest, string_mk_data]

theorem format_comments_eq_empty_iff (cs : List String) :
    format_comments cs = "" ↔ cs = [] := by
  constructor
  · intro h
    cases cs with
    | nil => rfl
    | cons c rest =>
      exfalso
      cases rest with
      | nil =>
        have hd := congrArg String.data h
        rw [format_comments] at hd
        simp only [List.map_cons, List.map_nil, pyJoin, String.data_append] at hd
        exact absurd hd (by simp)
      | cons d t =>
        have hd := congrArg String.data h
        rw [format_comments] at hd
        simp only [List.map_cons, pyJoin, String.data_append] at hd
        exact absurd hd (by simp)
  · intro h
    subst h
    rfl

theorem format_comments_lines (cs : List String) (hne : cs ≠ [])
    (h : ∀ c ∈ cs, ∀ x ∈ c.data, x ≠ '\n') :
    linesOf (format_comments cs) = cs.map (fun c => "#. " ++ c) := by
  rw [format_comments]
  refine linesOf_pyJoinNL _ (by simpa using hne) ?_
  intro s hs x hx
  obtain ⟨c, hc, rfl⟩ := List.mem_map.mp hs
  rw [String.data_append] at hx
  rcases List.mem_append.mp hx with hx | hx
  · rcases (by simpa using hx : x = '#' ∨ x = '.' ∨ x = ' ') with rfl | rfl | rfl <;> decide
  · exact h c hc x hx

/-- C8 counterexample: a group of two occurrences with the same
comment `"note"` renders two `#. note` lines — the entry does not
deduplicate comments. -/
theorem C8_counterexample :
    format_entry
        [{ filename := "t.py", lineno := 5, msgid := some "hi", msgctx := none,
           msgid_plural := none, is_python_format := false, comments := ["note"] },
         { filename := "t.py", lineno := 42, msgid := some "hi", msgctx := none,
           msgid_plural := none, is_python_format := false, comments := ["note"] }]
        { marking_keywords := [], verbose := false, add_comments := some "x",
          no_location := true, width := 80 } =
      "#. note\n#. note\nmsgid \"hi\"\nmsgstr \"\""
    ∧ (linesOf (format_entry
        [{ filename := "t.py", lineno := 5, msgid := some "hi", msgctx := none,
           msgid_plural := none, is_python_format := false, comments := ["note"] },
         { filename := "t.py", lineno := 42, msgid := some "hi", msgctx := none,
           msgid_plural := none, is_python_format := false, comments := ["note"] }]
        { marking_keywords := [], verbose := false, add_comments := some "x",
          no_location := true, width := 80 })).count "#. note" = 2 := by
  decide

/-- C8 amended: the comment block renders one `#.` line per comment
of each occurrence whose comment list is nonempty, in occurrence
order: identical comments from different occurrences are repeated (no
deduplication across the group), and empty-string comments inside a
nonempty list still produce `#. ` lines; only occurrences whose whole
comment list is empty are skipped. -/
theorem C8_comment_lines_per_occurrence (msgs : List Message)
    (h : ∀ m ∈ msgs, ∀ c ∈ m.comments, ∀ x ∈ c.data, x ≠ '\n') :
    (entryComments msgs).flatMap linesOf =
      msgs.flatMap (fun m => m.comments.map (fun c => "#. " ++ c)) := by
  induction msgs with
  | nil => rfl
  | cons m rest ih =>
    have hrest := ih (fun x hx => h x (by simp [hx]))
    by_cases hc : m.comments = []
    · have hfc : format_comments m.comments = "" :=
        (format_comments_eq_empty_iff m.comments).mpr hc
      rw [entryComments, if_pos hfc]
      simp [hc, hrest]
    · have hfc : ¬ (format_comments m.comments = "") := by
        intro hh
        exact hc ((format_comments_eq_empty_iff m.comments).mp hh)
      rw [entryComments, if_neg hfc]
      rw [List.flatMap_cons, List.flatMap_cons, hrest,
        format_comments_lines m.comments hc (h m (by simp))]

/-- Witness for C8 amended at the two-occurrence group with a shared
comment. -/
theorem C8_comment_lines_per_occurrence_witness :
    (entryComments
        [{ filename := "t.py", lineno := 5, msgid := some "hi", msgctx := none,
           msgid_plural := none, is_python_format := false, comments := ["note"] },
         { filename := "t.py", lineno := 42, msgid := some "hi", msgctx := none,
           msgid_plural := none, is_python_format := false, comments := ["note"] }]).flatMap
      linesOf =
    ([{ filename := "t.py", lineno := 5, msgid := some "hi", msgctx := none,
        msgid_plural := none, is_python_format := false, comments := ["note"] },
      { filename := "t.py", lineno := 42, msgid := some "hi", msgctx := none,
        msgid_plural := none, is_python_format := false, comments := ["note"] }] :
      List Message).flatMap (fun m => m.comments.map (fun c => "#. " ++ c)) :=
  C8_comment_lines_per_occurrence _ (by decide)

end Astgettext
